import Mathlib

/-!
Shallow embedding of the `wut` command runner (package `wut`, file
`runner.go`, plus the CLI glue in `cmd/wut/main.go`).

Modelling conventions:

- Durations are `Nat`, in nanoseconds (Go `time.Duration` units); `time.Millisecond`
  and `time.Second` are the corresponding constants.
- Go `error` results become `Option ε` for an abstract error type `ε`:
  `none` is Go `nil` (success), `some e` a failure.
- The process executor (interface `executor`, `Run(ctx, opts, name, args...)`)
  is abstracted as a function from the invocation index (the value of
  `runsCompleted` at the moment of the call, i.e. the number of previous
  invocations) to its returned error. Wall-clock time inside an attempt is
  not modelled; the per-attempt context derivation of `executeCommand` is
  modelled separately on abstract deadlines (`Runner.executeCommandScope`).
- The `select` in `Run` races `baseCtx.Done()` against
  `time.After(nextExecDelay())`. Which branch wins depends on real time (and
  on Go's random tie-break), so it is abstracted as an oracle
  `ctxDone : Nat → Bool` indexed by the loop iteration: `ctxDone i = true`
  means the context's done-signal wins the race at iteration `i`.
  `context.Cause(baseCtx)` at the moment of observation is the parameter
  `cause : ε`.
- The loop itself may run forever (e.g. `MaxRuns = 0` with a failing
  command and a never-done context), so the model takes a fuel bound: a
  `result` of `none` means the model's step budget ran out, not a behavior
  of the code.
- `runsCompleted` is a Go `uint`; it only ever increases by 1 per attempt,
  so overflow is immaterial and it is modelled as `Nat`. The `runlock`
  mutex only serializes the single control loop against itself and has no
  observable effect in the sequential model.
-/

/-- Go `time.Millisecond` in nanoseconds. -/
def timeMillisecond : Nat := 1000000

/-- Go `time.Second` in nanoseconds. -/
def timeSecond : Nat := 1000000000

/-- Terminal errors that `Run` can return (other than Go `nil`):
the sentinel `errMaxRunsCompleted` declared in runner.go, or the
value of `context.Cause(baseCtx)` propagated out of the select. The two
constructors are distinct; in particular `maxRunsCompleted` carries no
cause and cannot wrap one. -/
inductive RunError (ε : Type) where
  | maxRunsCompleted : RunError ε
  | ctxCause : ε → RunError ε
deriving DecidableEq

/-- The sentinel `errMaxRunsCompleted = errors.New("wut: maximum number of runs completed")`. -/
def errMaxRunsCompleted (ε : Type) : RunError ε := RunError.maxRunsCompleted

/-- The `Runner` struct of runner.go, restricted to the fields the control
loop reads or writes. `name`/`args` are the command spec; `baseCtx`,
`executor` and `logger` are collaborators passed separately in this model;
`runlock` is a mutex with no effect on the sequential loop. -/
structure Runner where
  name : String
  args : List String
  ProcessTimeout : Nat
  RetryDelay : Nat
  MaxRuns : Nat
  ContinueOnSuccess : Bool
  runsCompleted : Nat
deriving DecidableEq

/-- The `NewRunner` constructor: it sets `name`, `args` (and the context,
executor and discard logger, not carried in this structure) and leaves every
policy field at its Go zero value: `ProcessTimeout = 0`, `RetryDelay = 0`,
`MaxRuns = 0`, `ContinueOnSuccess = false`, `runsCompleted = 0`. -/
def NewRunner (name : String) (args : List String) : Runner :=
  { name := name
    args := args
    ProcessTimeout := 0
    RetryDelay := 0
    MaxRuns := 0
    ContinueOnSuccess := false
    runsCompleted := 0 }

/-- The `nextExecDelay` method of runner.go: 0 before the first run
(`runsCompleted == 0`), `RetryDelay` afterwards. -/
def Runner.nextExecDelay (r : Runner) : Nat :=
  if r.runsCompleted = 0 then 0 else r.RetryDelay

/-- Go `context.WithTimeout(parent, d)` at absolute time `now`, on abstract
deadlines (`none` = the parent carries no deadline): the derived context's
deadline is `now + d`, clipped to the parent's deadline when the parent's is
earlier, i.e. the earlier of the two. -/
def contextWithTimeout (parent : Option Nat) (now d : Nat) : Option Nat :=
  match parent with
  | none => some (now + d)
  | some pd => some (min pd (now + d))

/-- The context derivation at the top of `executeCommand` (runner.go lines
127-132): `ctx := r.baseCtx`; if `r.ProcessTimeout > 0` then
`ctx, cf := context.WithTimeout(r.baseCtx, r.ProcessTimeout)`. `base` is the
overall context's deadline, `now` the time the attempt starts. -/
def Runner.executeCommandScope (r : Runner) (base : Option Nat) (now : Nat) : Option Nat :=
  if 0 < r.ProcessTimeout then contextWithTimeout base now r.ProcessTimeout
  else base

/-- The rest of `executeCommand` (runner.go lines 134-138): invoke the
executor (here abstracted over the invocation index, which equals the
current `runsCompleted`), and — by the deferred function — increment
`runsCompleted` by one after the invocation returns, success or failure
alike. Returns the executor's error together with the updated runner. -/
def Runner.executeCommand {ε : Type} (r : Runner) (exec : Nat → Option ε) :
    Option ε × Runner :=
  (exec r.runsCompleted, { r with runsCompleted := r.runsCompleted + 1 })

/-- Observable outcome of the modelled `Run` loop: the returned error
(`result = some none` is Go `return nil`; `some (some e)` an error return;
`none` means the fuel bound was hit), the final runner state, the number of
executor invocations made, and the list of full inter-attempt delay waits
incurred (one entry per iteration in which the timer branch of the select
won, in order). -/
structure RunResult (ε : Type) where
  result : Option (Option (RunError ε))
  runner : Runner
  invocations : Nat
  delays : List Nat
deriving DecidableEq

/-- One-to-one transcription of the `for { select { ... } }` loop of `Run`
(runner.go lines 92-110), fuelled. At iteration `i`: if the context's
done-signal wins the race, return `context.Cause(baseCtx)`; otherwise the
`time.After(r.nextExecDelay())` timer fired, so record that full delay wait,
check `r.MaxRuns > 0 && r.runsCompleted >= r.MaxRuns` and return the
sentinel if it holds, otherwise run `executeCommand` and return `nil` when
`err == nil && !r.ContinueOnSuccess`, else loop. -/
def Runner.RunAux {ε : Type} (exec : Nat → Option ε) (ctxDone : Nat → Bool) (cause : ε) :
    Nat → Runner → Nat → Nat → List Nat → RunResult ε
  | 0, r, _, invs, delays => ⟨none, r, invs, delays⟩
  | fuel + 1, r, i, invs, delays =>
    if ctxDone i then
      ⟨some (some (RunError.ctxCause cause)), r, invs, delays⟩
    else if 0 < r.MaxRuns ∧ r.MaxRuns ≤ r.runsCompleted then
      ⟨some (some (errMaxRunsCompleted ε)), r, invs, delays ++ [r.nextExecDelay]⟩
    else if (r.executeCommand exec).1.isNone && !r.ContinueOnSuccess then
      ⟨some none, (r.executeCommand exec).2, invs + 1, delays ++ [r.nextExecDelay]⟩
    else
      Runner.RunAux exec ctxDone cause fuel (r.executeCommand exec).2 (i + 1) (invs + 1)
        (delays ++ [r.nextExecDelay])

/-- The `Run` method: the loop started at iteration 0 with no invocations
recorded yet. (`Run` is called once on a freshly constructed runner, so
callers have `runsCompleted = 0`, but the model does not bake that in.) -/
def Runner.Run {ε : Type} (r : Runner) (exec : Nat → Option ε) (ctxDone : Nat → Bool)
    (cause : ε) (fuel : Nat) : RunResult ε :=
  Runner.RunAux exec ctxDone cause fuel r 0 0 []

/-- Default value of the CLI `-retry-delay` flag in cmd/wut/main.go:
`time.Second`. -/
def cliRetryDelayDefault : Nat := timeSecond

/-- Default value of the CLI `-max-runs` flag in cmd/wut/main.go: 0. -/
def cliMaxRunsDefault : Nat := 0

/-- Default value of the CLI `-continue` flag in cmd/wut/main.go: false. -/
def cliContinueDefault : Bool := false

/-- The field assignments `main` performs on the runner it builds with
`NewRunner` (cmd/wut/main.go lines 50-53), from the parsed flag values. -/
def cliConfigureRunner (r : Runner) (continueFlag : Bool) (maxRunsFlag retryDelayFlag : Nat) :
    Runner :=
  { r with
    ContinueOnSuccess := continueFlag
    MaxRuns := maxRunsFlag
    RetryDelay := retryDelayFlag }

/-- A runner that always fails, used as a concrete test fixture:
every invocation returns an error (here `Unit` as the error payload). -/
def failExec : Nat → Option Unit := fun _ => some ()

/-- A context oracle that is never done. -/
def ctxNever : Nat → Bool := fun _ => false

/-! Branch lemmas: the four possible shapes of one loop iteration. -/

theorem RunAux_fuel_zero {ε : Type} (exec : Nat → Option ε) (ctxDone : Nat → Bool) (cause : ε)
    (r : Runner) (i invs : Nat) (ds : List Nat) :
    Runner.RunAux exec ctxDone cause 0 r i invs ds = ⟨none, r, invs, ds⟩ := rfl

theorem RunAux_ctx_branch {ε : Type} (exec : Nat → Option ε) (ctxDone : Nat → Bool) (cause : ε)
    (fuel : Nat) (r : Runner) (i invs : Nat) (ds : List Nat) (h : ctxDone i = true) :
    Runner.RunAux exec ctxDone cause (fuel + 1) r i invs ds =
      ⟨some (some (RunError.ctxCause cause)), r, invs, ds⟩ := by
  simp [Runner.RunAux, h]

theorem RunAux_exhausted_branch {ε : Type} (exec : Nat → Option ε) (ctxDone : Nat → Bool)
    (cause : ε) (fuel : Nat) (r : Runner) (i invs : Nat) (ds : List Nat)
    (hc : ctxDone i = false) (hm : 0 < r.MaxRuns) (hr : r.MaxRuns ≤ r.runsCompleted) :
    Runner.RunAux exec ctxDone cause (fuel + 1) r i invs ds =
      ⟨some (some (errMaxRunsCompleted ε)), r, invs, ds ++ [r.nextExecDelay]⟩ := by
  simp [Runner.RunAux, hc, hm, hr]

theorem RunAux_success_branch {ε : Type} (exec : Nat → Option ε) (ctxDone : Nat → Bool)
    (cause : ε) (fuel : Nat) (r : Runner) (i invs : Nat) (ds : List Nat)
    (hc : ctxDone i = false) (hm : ¬(0 < r.MaxRuns ∧ r.MaxRuns ≤ r.runsCompleted))
    (hs : exec r.runsCompleted = none) (hk : r.ContinueOnSuccess = false) :
    Runner.RunAux exec ctxDone cause (fuel + 1) r i invs ds =
      ⟨some none, { r with runsCompleted := r.runsCompleted + 1 }, invs + 1,
        ds ++ [r.nextExecDelay]⟩ := by
  simp [Runner.RunAux, Runner.executeCommand, hc, hm, hs, hk]

theorem RunAux_continue_branch {ε : Type} (exec : Nat → Option ε) (ctxDone : Nat → Bool)
    (cause : ε) (fuel : Nat) (r : Runner) (i invs : Nat) (ds : List Nat)
    (hc : ctxDone i = false) (hm : ¬(0 < r.MaxRuns ∧ r.MaxRuns ≤ r.runsCompleted))
    (hs : ¬(exec r.runsCompleted = none ∧ r.ContinueOnSuccess = false)) :
    Runner.RunAux exec ctxDone cause (fuel + 1) r i invs ds =
      Runner.RunAux exec ctxDone cause fuel { r with runsCompleted := r.runsCompleted + 1 }
        (i + 1) (invs + 1) (ds ++ [r.nextExecDelay]) := by
  have hb : ((exec r.runsCompleted).isNone && !r.ContinueOnSuccess) = false := by
    cases hB : ((exec r.runsCompleted).isNone && !r.ContinueOnSuccess) with
    | false => rfl
    | true =>
      exact absurd (by simpa using hB) hs
  simp only [Runner.RunAux, Runner.executeCommand, hc, hb, Bool.false_eq_true, if_false,
    Bool.and_eq_true]
  rw [if_neg hm]

/-! Loop invariants, proved by induction on the fuel. -/

/-- Counter invariant: along any run of the loop, `runsCompleted` grows by
exactly the number of executor invocations made, and the invocation count
never decreases. -/
theorem RunAux_counter {ε : Type} (exec : Nat → Option ε) (ctxDone : Nat → Bool) (cause : ε) :
    ∀ (fuel : Nat) (r : Runner) (i invs : Nat) (ds : List Nat),
      (Runner.RunAux exec ctxDone cause fuel r i invs ds).runner.runsCompleted + invs =
        r.runsCompleted + (Runner.RunAux exec ctxDone cause fuel r i invs ds).invocations ∧
      invs ≤ (Runner.RunAux exec ctxDone cause fuel r i invs ds).invocations := by
  intro fuel
  induction fuel with
  | zero => intro r i invs ds; simp [RunAux_fuel_zero]
  | succ fuel ih =>
    intro r i invs ds
    by_cases hc : ctxDone i = true
    · simp [RunAux_ctx_branch exec ctxDone cause fuel r i invs ds hc]
    · have hc' : ctxDone i = false := by simpa using hc
      by_cases hm : 0 < r.MaxRuns ∧ r.MaxRuns ≤ r.runsCompleted
      · simp [RunAux_exhausted_branch exec ctxDone cause fuel r i invs ds hc' hm.1 hm.2]
      · by_cases hs : exec r.runsCompleted = none ∧ r.ContinueOnSuccess = false
        · simp only [RunAux_success_branch exec ctxDone cause fuel r i invs ds hc' hm hs.1 hs.2]
          exact ⟨by omega, by omega⟩
        · rw [RunAux_continue_branch exec ctxDone cause fuel r i invs ds hc' hm hs]
          have h := ih { r with runsCompleted := r.runsCompleted + 1 } (i + 1) (invs + 1)
            (ds ++ [r.nextExecDelay])
          simp only [] at h
          exact ⟨by omega, by omega⟩

/-- The max-runs check precedes every attempt, so from any state the loop
makes at most `MaxRuns - runsCompleted` further executor invocations. -/
theorem RunAux_invocation_bound {ε : Type} (exec : Nat → Option ε) (ctxDone : Nat → Bool)
    (cause : ε) :
    ∀ (fuel : Nat) (r : Runner) (i invs : Nat) (ds : List Nat), 0 < r.MaxRuns →
      (Runner.RunAux exec ctxDone cause fuel r i invs ds).invocations ≤
        invs + (r.MaxRuns - r.runsCompleted) := by
  intro fuel
  induction fuel with
  | zero => intro r i invs ds _; simp [RunAux_fuel_zero]
  | succ fuel ih =>
    intro r i invs ds hmax
    by_cases hc : ctxDone i = true
    · simp [RunAux_ctx_branch exec ctxDone cause fuel r i invs ds hc]
    · have hc' : ctxDone i = false := by simpa using hc
      by_cases hm : 0 < r.MaxRuns ∧ r.MaxRuns ≤ r.runsCompleted
      · simp [RunAux_exhausted_branch exec ctxDone cause fuel r i invs ds hc' hm.1 hm.2]
      · have hlt : r.runsCompleted < r.MaxRuns := by
          rcases Decidable.not_and_iff_or_not.mp hm with h | h
          · exact absurd hmax h
          · omega
        by_cases hs : exec r.runsCompleted = none ∧ r.ContinueOnSuccess = false
        · simp only [RunAux_success_branch exec ctxDone cause fuel r i invs ds hc' hm hs.1 hs.2]
          omega
        · rw [RunAux_continue_branch exec ctxDone cause fuel r i invs ds hc' hm hs]
          have h := ih { r with runsCompleted := r.runsCompleted + 1 } (i + 1) (invs + 1)
            (ds ++ [r.nextExecDelay]) (by simpa using hmax)
          simp only [] at h
          omega

/-- With a positive `MaxRuns`, the loop returns within
`MaxRuns - runsCompleted + 1` iterations. -/
theorem RunAux_terminates {ε : Type} (exec : Nat → Option ε) (ctxDone : Nat → Bool) (cause : ε) :
    ∀ (fuel : Nat) (r : Runner) (i invs : Nat) (ds : List Nat), 0 < r.MaxRuns →
      r.MaxRuns - r.runsCompleted + 1 ≤ fuel →
      (Runner.RunAux exec ctxDone cause fuel r i invs ds).result.isSome = true := by
  intro fuel
  induction fuel with
  | zero => intro r i invs ds _ hfuel; omega
  | succ fuel ih =>
    intro r i invs ds hmax hfuel
    by_cases hc : ctxDone i = true
    · simp [RunAux_ctx_branch exec ctxDone cause fuel r i invs ds hc]
    · have hc' : ctxDone i = false := by simpa using hc
      by_cases hm : 0 < r.MaxRuns ∧ r.MaxRuns ≤ r.runsCompleted
      · simp [RunAux_exhausted_branch exec ctxDone cause fuel r i invs ds hc' hm.1 hm.2]
      · have hlt : r.runsCompleted < r.MaxRuns := by
          rcases Decidable.not_and_iff_or_not.mp hm with h | h
          · exact absurd hmax h
          · omega
        by_cases hs : exec r.runsCompleted = none ∧ r.ContinueOnSuccess = false
        · simp [RunAux_success_branch exec ctxDone cause fuel r i invs ds hc' hm hs.1 hs.2]
        · rw [RunAux_continue_branch exec ctxDone cause fuel r i invs ds hc' hm hs]
          exact ih { r with runsCompleted := r.runsCompleted + 1 } (i + 1) (invs + 1)
            (ds ++ [r.nextExecDelay]) (by simpa using hmax) (by simp only []; omega)

/-- Exact trace of the loop under an always-failing executor and a
never-done context, from any start state with `runsCompleted ≤ MaxRuns > 0`:
it returns the sentinel with `runsCompleted` driven up to `MaxRuns`, makes
exactly `MaxRuns - runsCompleted` further invocations, and waits the full
inter-attempt delay once per remaining iteration (including the final
iteration that discovers exhaustion). -/
theorem RunAux_always_fails {ε : Type} (exec : Nat → Option ε) (ctxDone : Nat → Bool) (cause : ε)
    (hfail : ∀ k, exec k ≠ none) (hctx : ∀ j, ctxDone j = false) :
    ∀ (fuel : Nat) (r : Runner) (i invs : Nat) (ds : List Nat),
      0 < r.MaxRuns → r.runsCompleted ≤ r.MaxRuns →
      r.MaxRuns - r.runsCompleted + 1 ≤ fuel →
      Runner.RunAux exec ctxDone cause fuel r i invs ds =
        ⟨some (some (errMaxRunsCompleted ε)),
         { r with runsCompleted := r.MaxRuns },
         invs + (r.MaxRuns - r.runsCompleted),
         ds ++ (if r.runsCompleted = 0 then 0 else r.RetryDelay) ::
           List.replicate (r.MaxRuns - r.runsCompleted) r.RetryDelay⟩ := by
  intro fuel
  induction fuel with
  | zero => intro r i invs ds _ _ hfuel; omega
  | succ fuel ih =>
    intro r i invs ds hmax hle hfuel
    by_cases hdone : r.MaxRuns ≤ r.runsCompleted
    · have heq : r.runsCompleted = r.MaxRuns := le_antisymm hle hdone
      rw [RunAux_exhausted_branch exec ctxDone cause fuel r i invs ds (hctx i) hmax hdone]
      have hrzero : ¬r.runsCompleted = 0 := by omega
      have hrunner : { r with runsCompleted := r.MaxRuns } = r := by
        cases r
        simp_all
      simp [Runner.nextExecDelay, heq, hrzero, hrunner]
    · have hlt : r.runsCompleted < r.MaxRuns := by omega
      have hs : ¬(exec r.runsCompleted = none ∧ r.ContinueOnSuccess = false) :=
        fun h => hfail r.runsCompleted h.1
      rw [RunAux_continue_branch exec ctxDone cause fuel r i invs ds (hctx i)
        (fun h => hdone h.2) hs]
      rw [ih { r with runsCompleted := r.runsCompleted + 1 } (i + 1) (invs + 1)
        (ds ++ [r.nextExecDelay]) (by simpa using hmax) (by simp only []; omega)
        (by simp only []; omega)]
      have hn : r.MaxRuns - r.runsCompleted = (r.MaxRuns - (r.runsCompleted + 1)) + 1 := by
        omega
      simp only [RunResult.mk.injEq]
      refine ⟨trivial, trivial, by omega, ?_⟩
      rw [hn, List.replicate_succ]
      simp [Runner.nextExecDelay, List.append_assoc]

/-- A runner that always succeeds: every invocation returns no error. -/
def succExec : Nat → Option Unit := fun _ => none

/-- An executor succeeding on even-numbered invocations and failing on odd
ones, as a mixed-outcome fixture. -/
def mixExec : Nat → Option Unit := fun k => if k % 2 = 0 then none else some ()

/-- A context oracle that is already done at every iteration. -/
def ctxAlwaysDone : Nat → Bool := fun _ => true

/-- Fixture for the concrete scenario of the spec: maxRuns = 3,
retryDelay = 10ms. -/
def runnerC7 : Runner :=
  { NewRunner "c" [] with MaxRuns := 3, RetryDelay := 10 * timeMillisecond }

/-- Outcome of running that fixture against an always-failing executor
under a never-done context (fuel 10 is more than the 4 iterations used). -/
def runC7 : RunResult Unit := runnerC7.Run failExec ctxNever () 10

/-- Claim C1: for every MaxRuns = N > 0, an executor whose every invocation
fails and an overall context that is never done, Run returns the distinct
Exhausted sentinel errMaxRunsCompleted — a value different from every
wrapped context cause — and runsCompleted equals exactly N on return. -/
theorem C1_exhausted_on_max_runs {ε : Type} (exec : Nat → Option ε) (ctxDone : Nat → Bool)
    (cause : ε) (r : Runner) (fuel : Nat)
    (hfail : ∀ k, exec k ≠ none) (hctx : ∀ j, ctxDone j = false)
    (hmax : 0 < r.MaxRuns) (hfresh : r.runsCompleted = 0) (hfuel : r.MaxRuns + 1 ≤ fuel) :
    (r.Run exec ctxDone cause fuel).result = some (some (errMaxRunsCompleted ε)) ∧
    (r.Run exec ctxDone cause fuel).runner.runsCompleted = r.MaxRuns ∧
    ∀ c : ε, errMaxRunsCompleted ε ≠ RunError.ctxCause c := by
  have h := RunAux_always_fails exec ctxDone cause hfail hctx fuel r 0 0 [] hmax (by omega)
    (by omega)
  rw [Runner.Run, h]
  exact ⟨rfl, rfl, fun c hc => by simp [errMaxRunsCompleted] at hc⟩

/-- Witness for C1 at MaxRuns = 2. -/
theorem C1_exhausted_on_max_runs_witness :
    (({ NewRunner "cmd" [] with MaxRuns := 2 }).Run failExec ctxNever () 4).result =
        some (some (errMaxRunsCompleted Unit)) ∧
    (({ NewRunner "cmd" [] with MaxRuns := 2 }).Run failExec ctxNever () 4).runner.runsCompleted
        = 2 ∧
    ∀ c : Unit, errMaxRunsCompleted Unit ≠ RunError.ctxCause c :=
  C1_exhausted_on_max_runs failExec ctxNever () { NewRunner "cmd" [] with MaxRuns := 2 } 4
    (fun k => by simp [failExec]) (fun j => rfl) (by decide) rfl (by decide)

/-- Claim C2: whenever the overall context's done-signal wins the race
against the delay timer at an iteration, the loop returns the context's
recorded cancellation cause immediately: the runner state, invocation count
and recorded delays are unchanged, so no further executor invocation is
made after that observation. -/
theorem C2_ctx_cause_terminates {ε : Type} (exec : Nat → Option ε) (ctxDone : Nat → Bool)
    (cause : ε) (fuel : Nat) (r : Runner) (i invs : Nat) (ds : List Nat)
    (h : ctxDone i = true) :
    Runner.RunAux exec ctxDone cause (fuel + 1) r i invs ds =
      ⟨some (some (RunError.ctxCause cause)), r, invs, ds⟩ :=
  RunAux_ctx_branch exec ctxDone cause fuel r i invs ds h

/-- Witness for C2 with an already-done context at iteration 1. -/
theorem C2_ctx_cause_terminates_witness :
    Runner.RunAux failExec ctxAlwaysDone () 3 (NewRunner "w" []) 1 1 [0] =
      ⟨some (some (RunError.ctxCause ())), NewRunner "w" [], 1, [0]⟩ :=
  C2_ctx_cause_terminates failExec ctxAlwaysDone () 2 (NewRunner "w" []) 1 1 [0] rfl

/-- Claim C3: runsCompleted equals exactly the number of executor
invocations: executeCommand increments it by exactly 1 after the invocation
returns, the loop never changes it otherwise, neither counter ever
decreases, and a Run from a fresh runner ends with runsCompleted equal to
the number of invocations made. -/
theorem C3_counter_equals_invocations {ε : Type} (exec : Nat → Option ε) (ctxDone : Nat → Bool)
    (cause : ε) (fuel : Nat) (r : Runner) (i invs : Nat) (ds : List Nat) :
    (r.executeCommand exec).2.runsCompleted = r.runsCompleted + 1 ∧
    (Runner.RunAux exec ctxDone cause fuel r i invs ds).runner.runsCompleted + invs =
      r.runsCompleted + (Runner.RunAux exec ctxDone cause fuel r i invs ds).invocations ∧
    invs ≤ (Runner.RunAux exec ctxDone cause fuel r i invs ds).invocations ∧
    r.runsCompleted ≤ (Runner.RunAux exec ctxDone cause fuel r i invs ds).runner.runsCompleted ∧
    (r.runsCompleted = 0 →
      (r.Run exec ctxDone cause fuel).runner.runsCompleted =
        (r.Run exec ctxDone cause fuel).invocations) := by
  have h := RunAux_counter exec ctxDone cause fuel r i invs ds
  have h0 := RunAux_counter exec ctxDone cause fuel r 0 0 []
  refine ⟨rfl, h.1, h.2, by omega, fun hz => ?_⟩
  have h1 := h0.1
  rw [Runner.Run]
  omega

/-- Witness for C3 on a fresh runner against an always-failing executor. -/
theorem C3_counter_equals_invocations_witness :
    ((NewRunner "n" ["a"]).executeCommand failExec).2.runsCompleted = 1 ∧
    ((NewRunner "n" ["a"]).Run failExec ctxNever () 3).runner.runsCompleted =
      ((NewRunner "n" ["a"]).Run failExec ctxNever () 3).invocations :=
  ⟨(C3_counter_equals_invocations failExec ctxNever () 3 (NewRunner "n" ["a"]) 0 0 []).1,
   (C3_counter_equals_invocations failExec ctxNever () 3 (NewRunner "n" ["a"]) 0 0 []).2.2.2.2
      rfl⟩

/-- Claim C4: in an iteration that reaches the attempt (context not done,
max-runs check not triggered), if the executor returns no failure and
ContinueOnSuccess is false then Run terminates on that attempt returning
nil; in every other case the loop proceeds to the next iteration with the
incremented counter. -/
theorem C4_success_stops_otherwise_continues {ε : Type} (exec : Nat → Option ε)
    (ctxDone : Nat → Bool) (cause : ε) (fuel : Nat) (r : Runner) (i invs : Nat) (ds : List Nat)
    (hc : ctxDone i = false) (hm : ¬(0 < r.MaxRuns ∧ r.MaxRuns ≤ r.runsCompleted)) :
    (exec r.runsCompleted = none → r.ContinueOnSuccess = false →
      Runner.RunAux exec ctxDone cause (fuel + 1) r i invs ds =
        ⟨some none, { r with runsCompleted := r.runsCompleted + 1 }, invs + 1,
          ds ++ [r.nextExecDelay]⟩) ∧
    (¬(exec r.runsCompleted = none ∧ r.ContinueOnSuccess = false) →
      Runner.RunAux exec ctxDone cause (fuel + 1) r i invs ds =
        Runner.RunAux exec ctxDone cause fuel { r with runsCompleted := r.runsCompleted + 1 }
          (i + 1) (invs + 1) (ds ++ [r.nextExecDelay])) :=
  ⟨fun hs hk => RunAux_success_branch exec ctxDone cause fuel r i invs ds hc hm hs hk,
   fun hs => RunAux_continue_branch exec ctxDone cause fuel r i invs ds hc hm hs⟩

/-- Witness for C4: a succeeding attempt returns nil at once; a failing
attempt loops to the next iteration. -/
theorem C4_success_stops_otherwise_continues_witness :
    Runner.RunAux succExec ctxNever () 4 (NewRunner "s" []) 0 0 [] =
      ⟨some none, { NewRunner "s" [] with runsCompleted := 1 }, 1, [0]⟩ ∧
    Runner.RunAux failExec ctxNever () 4 (NewRunner "s" []) 0 0 [] =
      Runner.RunAux failExec ctxNever () 3 { NewRunner "s" [] with runsCompleted := 1 } 1 1
        [0] :=
  ⟨(C4_success_stops_otherwise_continues succExec ctxNever () 3 (NewRunner "s" []) 0 0 [] rfl
      (by decide)).1 rfl rfl,
   (C4_success_stops_otherwise_continues failExec ctxNever () 3 (NewRunner "s" []) 0 0 [] rfl
      (by decide)).2 (by simp [failExec])⟩

/-- Claim C5: the computed inter-attempt delay is exactly 0 before the
first attempt (runsCompleted = 0) and exactly RetryDelay before every
subsequent attempt (runsCompleted > 0), for every runner configuration. -/
theorem C5_next_exec_delay (r : Runner) :
    (r.runsCompleted = 0 → r.nextExecDelay = 0) ∧
    (0 < r.runsCompleted → r.nextExecDelay = r.RetryDelay) := by
  refine ⟨fun h => by simp [Runner.nextExecDelay, h], fun h => ?_⟩
  have hz : ¬r.runsCompleted = 0 := by omega
  simp [Runner.nextExecDelay, hz]

/-- Witness for C5 at runsCompleted 0 and 2. -/
theorem C5_next_exec_delay_witness :
    (NewRunner "d" []).nextExecDelay = 0 ∧
    ({ NewRunner "d" [] with RetryDelay := 7, runsCompleted := 2 }).nextExecDelay = 7 :=
  ⟨(C5_next_exec_delay (NewRunner "d" [])).1 rfl,
   (C5_next_exec_delay { NewRunner "d" [] with RetryDelay := 7, runsCompleted := 2 }).2
      (by decide)⟩

/-- Claim C6: the per-attempt scope derivation of executeCommand: with
ProcessTimeout > 0 the attempt runs under a scope derived from the overall
context and additionally bounded by ProcessTimeout — its deadline is the
earlier of the overall deadline and now + ProcessTimeout, so whichever is
shorter cancels the attempt, and it is never later than the overall
deadline; with ProcessTimeout = 0 the attempt runs directly under the
overall context. -/
theorem C6_attempt_scope (r : Runner) (base : Option Nat) (now : Nat) :
    (0 < r.ProcessTimeout → base = none →
      r.executeCommandScope base now = some (now + r.ProcessTimeout)) ∧
    (0 < r.ProcessTimeout → ∀ db, base = some db →
      r.executeCommandScope base now = some (min db (now + r.ProcessTimeout))) ∧
    (r.ProcessTimeout = 0 → r.executeCommandScope base now = base) ∧
    (∀ db d, base = some db → r.executeCommandScope base now = some d → d ≤ db) := by
  refine ⟨fun hpt hb => ?_, fun hpt db hb => ?_, fun hpt => ?_, fun db d hb hd => ?_⟩
  · subst hb; simp [Runner.executeCommandScope, contextWithTimeout, hpt]
  · subst hb; simp [Runner.executeCommandScope, contextWithTimeout, hpt]
  · simp [Runner.executeCommandScope, hpt]
  · subst hb
    by_cases hpt : 0 < r.ProcessTimeout
    · have hmin : min db (now + r.ProcessTimeout) = d := by
        simpa [Runner.executeCommandScope, contextWithTimeout, hpt] using hd
      rw [← hmin]
      exact min_le_left _ _
    · have hbd : db = d := by
        simpa [Runner.executeCommandScope, hpt] using hd
      omega

/-- Witness for C6: a 50-unit process timeout against an overall deadline
at 120 starting at time 100, and the no-timeout case. -/
theorem C6_attempt_scope_witness :
    ({ NewRunner "t" [] with ProcessTimeout := 50 }).executeCommandScope (some 120) 100 =
      some 120 ∧
    ({ NewRunner "t" [] with ProcessTimeout := 50 }).executeCommandScope none 100 =
      some 150 ∧
    (NewRunner "t" []).executeCommandScope (some 120) 100 = some 120 :=
  ⟨by simpa using
      (C6_attempt_scope { NewRunner "t" [] with ProcessTimeout := 50 } (some 120) 100).2.1
        (by decide) 120 rfl,
   (C6_attempt_scope { NewRunner "t" [] with ProcessTimeout := 50 } none 100).1 (by decide) rfl,
   (C6_attempt_scope (NewRunner "t" []) (some 120) 100).2.2.1 rfl⟩

/-- Claim C7 as stated is false on the code: in the concrete scenario
maxRuns = 3, retryDelay = 10ms, always-failing executor, never-done
context, the run does return Exhausted with runsCompleted = 3, but it
incurs three full 10ms retry-delay waits (total 30ms), not two (20ms): the
delay is waited before the max-runs check, so the final iteration waits a
full RetryDelay before discovering exhaustion. -/
theorem C7_two_delays_counterexample :
    runC7.result = some (some (errMaxRunsCompleted Unit)) ∧
    runC7.runner.runsCompleted = 3 ∧
    runC7.delays = [0, 10 * timeMillisecond, 10 * timeMillisecond, 10 * timeMillisecond] ∧
    (runC7.delays.filter (fun d => d != 0)).length = 3 ∧
    runC7.delays.sum = 30 * timeMillisecond ∧
    ¬((runC7.delays.filter (fun d => d != 0)).length = 2) ∧
    ¬(runC7.delays.sum = 20 * timeMillisecond) := by decide

/-- Claim C7 amended: with maxRuns = N > 0, RetryDelay = d, an
always-failing executor and a never-done context, Run returns the Exhausted
error with runsCompleted = N and incurs exactly N full retry-delay waits of
d each — none before the first attempt, one before each of the N-1 later
attempts, and one more before the final iteration that discovers
exhaustion — for a total delay of N * d (30ms in the concrete scenario). -/
theorem C7_amended_n_delays {ε : Type} (exec : Nat → Option ε) (ctxDone : Nat → Bool)
    (cause : ε) (r : Runner) (fuel : Nat)
    (hfail : ∀ k, exec k ≠ none) (hctx : ∀ j, ctxDone j = false)
    (hmax : 0 < r.MaxRuns) (hfresh : r.runsCompleted = 0) (hfuel : r.MaxRuns + 1 ≤ fuel) :
    (r.Run exec ctxDone cause fuel).result = some (some (errMaxRunsCompleted ε)) ∧
    (r.Run exec ctxDone cause fuel).runner.runsCompleted = r.MaxRuns ∧
    (r.Run exec ctxDone cause fuel).delays = 0 :: List.replicate r.MaxRuns r.RetryDelay ∧
    (r.Run exec ctxDone cause fuel).delays.sum = r.MaxRuns * r.RetryDelay := by
  have h := RunAux_always_fails exec ctxDone cause hfail hctx fuel r 0 0 [] hmax (by omega)
    (by omega)
  rw [Runner.Run, h]
  refine ⟨rfl, rfl, by simp [hfresh], ?_⟩
  simp [hfresh, List.sum_replicate, smul_eq_mul]

/-- Witness for the amended C7 at the concrete scenario. -/
theorem C7_amended_n_delays_witness :
    runC7.result = some (some (errMaxRunsCompleted Unit)) ∧
    runC7.delays = 0 :: List.replicate 3 (10 * timeMillisecond) ∧
    runC7.delays.sum = 3 * (10 * timeMillisecond) :=
  ⟨(C7_amended_n_delays failExec ctxNever () runnerC7 10 (fun k => by simp [failExec])
      (fun j => rfl) (by decide) rfl (by decide)).1,
   (C7_amended_n_delays failExec ctxNever () runnerC7 10 (fun k => by simp [failExec])
      (fun j => rfl) (by decide) rfl (by decide)).2.2.1,
   (C7_amended_n_delays failExec ctxNever () runnerC7 10 (fun k => by simp [failExec])
      (fun j => rfl) (by decide) rfl (by decide)).2.2.2⟩

/-- Claim C8: the loop never starts an executor invocation after a terminal
condition has been observed: an iteration where the context's done-signal
wins returns the cause with the invocation count unchanged; an iteration
entered with MaxRuns > 0 and runsCompleted at least MaxRuns leaves the
invocation count unchanged; and a Run whose context is already done at
iteration 0 starts no attempt and returns the context's cause. -/
theorem C8_no_attempt_after_terminal {ε : Type} (exec : Nat → Option ε) (ctxDone : Nat → Bool)
    (cause : ε) :
    (∀ (fuel : Nat) (r : Runner) (i invs : Nat) (ds : List Nat), ctxDone i = true →
      Runner.RunAux exec ctxDone cause (fuel + 1) r i invs ds =
        ⟨some (some (RunError.ctxCause cause)), r, invs, ds⟩) ∧
    (∀ (fuel : Nat) (r : Runner) (i invs : Nat) (ds : List Nat),
      0 < r.MaxRuns → r.MaxRuns ≤ r.runsCompleted →
      (Runner.RunAux exec ctxDone cause (fuel + 1) r i invs ds).invocations = invs) ∧
    (∀ (fuel : Nat) (r : Runner), ctxDone 0 = true →
      r.Run exec ctxDone cause (fuel + 1) =
        ⟨some (some (RunError.ctxCause cause)), r, 0, []⟩) := by
  refine ⟨fun fuel r i invs ds h => RunAux_ctx_branch exec ctxDone cause fuel r i invs ds h,
    fun fuel r i invs ds hm hr => ?_, fun fuel r h => ?_⟩
  · by_cases hc : ctxDone i = true
    · rw [RunAux_ctx_branch exec ctxDone cause fuel r i invs ds hc]
    · rw [RunAux_exhausted_branch exec ctxDone cause fuel r i invs ds (by simpa using hc)
        hm hr]
  · rw [Runner.Run]
    exact RunAux_ctx_branch exec ctxDone cause fuel r 0 0 [] h

/-- Witness for C8: a done context, an exhausted state, and a Run under an
already-done context. -/
theorem C8_no_attempt_after_terminal_witness :
    Runner.RunAux failExec ctxAlwaysDone () 3 (NewRunner "k" []) 0 0 [] =
      ⟨some (some (RunError.ctxCause ())), NewRunner "k" [], 0, []⟩ ∧
    (Runner.RunAux failExec ctxNever () 3
        { NewRunner "k" [] with MaxRuns := 1, runsCompleted := 1 } 0 4 []).invocations = 4 ∧
    (NewRunner "k" []).Run failExec ctxAlwaysDone () 3 =
      ⟨some (some (RunError.ctxCause ())), NewRunner "k" [], 0, []⟩ :=
  ⟨(C8_no_attempt_after_terminal failExec ctxAlwaysDone ()).1 2 (NewRunner "k" []) 0 0 [] rfl,
   (C8_no_attempt_after_terminal failExec ctxNever ()).2.1 2
      { NewRunner "k" [] with MaxRuns := 1, runsCompleted := 1 } 0 4 [] (by decide) (by decide),
   (C8_no_attempt_after_terminal failExec ctxAlwaysDone ()).2.2 2 (NewRunner "k" []) rfl⟩

/-- Claim C9 as stated is false on the code: NewRunner leaves RetryDelay at
its zero value 0, not one second, so a runner constructed by NewRunner and
run without assigning RetryDelay waits 0 between attempts. -/
theorem C9_default_delay_counterexample :
    (NewRunner "sleepy" ["1"]).RetryDelay = 0 ∧
    ¬((NewRunner "sleepy" ["1"]).RetryDelay = timeSecond) ∧
    ({ NewRunner "sleepy" ["1"] with runsCompleted := 1 }).nextExecDelay = 0 := by decide

/-- Claim C9 amended: the one-second retry-delay default belongs to the CLI
layer: the -retry-delay flag of cmd/wut/main.go defaults to time.Second and
main assigns it to the runner, so a CLI-built runner under default flags
has RetryDelay = 1s; the library constructor NewRunner itself leaves
RetryDelay at 0, so a Runner run without assigning RetryDelay waits 0
between attempts. -/
theorem C9_amended_cli_default_delay (name : String) (args : List String) :
    (NewRunner name args).RetryDelay = 0 ∧
    cliRetryDelayDefault = timeSecond ∧
    (cliConfigureRunner (NewRunner name args) cliContinueDefault cliMaxRunsDefault
        cliRetryDelayDefault).RetryDelay = timeSecond ∧
    ∀ k, ({ NewRunner name args with runsCompleted := k }).nextExecDelay = 0 := by
  refine ⟨rfl, rfl, rfl, fun k => ?_⟩
  simp [Runner.nextExecDelay, NewRunner]

/-- Claim C10: with MaxRuns = N > 0 and any executor whose invocations all
return, whatever the mix of successes and failures, the value of
ContinueOnSuccess and the context oracle, Run terminates within the model's
N + 1 iteration budget and makes at most N executor invocations. -/
theorem C10_terminates_within_max_runs {ε : Type} (exec : Nat → Option ε) (ctxDone : Nat → Bool)
    (cause : ε) (r : Runner) (fuel : Nat)
    (hmax : 0 < r.MaxRuns) (hfresh : r.runsCompleted = 0) (hfuel : r.MaxRuns + 1 ≤ fuel) :
    (r.Run exec ctxDone cause fuel).result.isSome = true ∧
    (r.Run exec ctxDone cause fuel).invocations ≤ r.MaxRuns := by
  constructor
  · rw [Runner.Run]
    exact RunAux_terminates exec ctxDone cause fuel r 0 0 [] hmax (by omega)
  · rw [Runner.Run]
    have h := RunAux_invocation_bound exec ctxDone cause fuel r 0 0 [] hmax
    omega

/-- Witness for C10 under a mixed-outcome executor with
ContinueOnSuccess = true and MaxRuns = 4. -/
theorem C10_terminates_within_max_runs_witness :
    (({ NewRunner "m" [] with MaxRuns := 4, ContinueOnSuccess := true }).Run mixExec ctxNever
        () 6).result.isSome = true ∧
    (({ NewRunner "m" [] with MaxRuns := 4, ContinueOnSuccess := true }).Run mixExec ctxNever
        () 6).invocations ≤ 4 :=
  C10_terminates_within_max_runs mixExec ctxNever ()
    { NewRunner "m" [] with MaxRuns := 4, ContinueOnSuccess := true } 6 (by decide) rfl
    (by decide)
